import Mathlib

/-!
# Verification of the arubacrm business-day cadence engine

This file gives a shallow embedding, in Lean, of the cadence due-date engine
of the arubacrm repository (the to-do page component: the business-day
calendar helpers `isBusinessDay`, `getNextBusinessDay`, `countBusinessDays`,
`addBusinessDays`, and the `fetchData` due-computation over opportunity,
contact and outreach-log rows), together with proofs of the properties the
specification states about it.

Modelling conventions:

* Calendar dates are integers counting days since 1970-01-01 (a Thursday).
  The JS code normalizes every date it compares to local midnight
  (`setHours(0,0,0,0)`), so all its date comparisons and day-stepping
  operations are faithfully represented at whole-day granularity.
  `Date.prototype.getDay` (0 = Sunday .. 6 = Saturday) becomes `getDay`
  below, with `getDay 0 = 4` (Thursday), matching the epoch.
* JS strings (ids, names, statuses) are modelled as `List Char`.
* The JS `while` loops are modelled as fuelled recursions; the fuel given is
  proved sufficient (the loop-equals-closed-form theorems below), which is
  the shallow-embedding counterpart of the loops' termination.
* A thrown JS exception is modelled as `Except.error ()`.
-/

namespace ArubaCRM

/-- JS strings, modelled as their list of characters. -/
abbrev Str := List Char

/-- `Date.prototype.getDay`: day of week, 0 = Sunday .. 6 = Saturday.
Day number 0 is 1970-01-01, a Thursday, hence the `+ 4` anchor. -/
def getDay (d : Int) : Int := (d + 4) % 7

/-- Source: `isBusinessDay(date)` — `const day = date.getDay(); return day !== 0 && day !== 6;` -/
def isBusinessDay (d : Int) : Bool := getDay d != 0 && getDay d != 6

/-- The body of the `while (!isBusinessDay(next)) next.setDate(next.getDate() + 1)`
loop of `getNextBusinessDay`, with explicit fuel. Fuel 3 is sufficient
(at most two consecutive non-business days exist), proved below. -/
def nextBizLoop : Nat → Int → Int
  | 0, next => next
  | fuel + 1, next => if isBusinessDay next then next else nextBizLoop fuel (next + 1)

/-- Source: `getNextBusinessDay(fromDate)` — start at `fromDate + 1` and step
forward one day at a time until a business day is reached. -/
def getNextBusinessDay (fromDate : Int) : Int := nextBizLoop 3 (fromDate + 1)

/-- The `while (current <= endDate)` loop of `countBusinessDays`, with explicit
fuel: check `current <= endDate`; if so count `current` when it is a business
day and advance one day. The fuel given by `countBusinessDays` is proved
sufficient below. -/
def countBizLoop : Nat → Int → Int → Nat → Nat
  | 0, _, _, count => count
  | fuel + 1, current, endDate, count =>
    if current ≤ endDate then
      countBizLoop fuel (current + 1) endDate (if isBusinessDay current then count + 1 else count)
    else count

/-- Source: `countBusinessDays(startDate, endDate)` — count business days in
the loop starting at `startDate + 1`, not including the start, including the
end. -/
def countBusinessDays (startDate endDate : Int) : Int :=
  (countBizLoop ((endDate - startDate).toNat + 1) (startDate + 1) endDate 0 : Nat)

/-- The `while (daysAdded < businessDays)` loop of `addBusinessDays`, with
explicit fuel: step `result` forward one day; when the new day is a business
day one more business day has been added. `remaining` is
`businessDays - daysAdded`. The fuel given by `addBusinessDays` is proved
sufficient below. -/
def addBizLoop : Nat → Int → Nat → Int
  | _, result, 0 => result
  | 0, result, _ + 1 => result
  | fuel + 1, result, remaining + 1 =>
    if isBusinessDay (result + 1) then addBizLoop fuel (result + 1) remaining
    else addBizLoop fuel (result + 1) (remaining + 1)

/-- Source: `addBusinessDays(startDate, businessDays)` — advance `startDate`
until `businessDays` business days have been stepped over. A non-positive
`businessDays` makes the loop exit immediately (`Int.toNat` sends it to 0),
exactly as `daysAdded < businessDays` is initially false in the source. -/
def addBusinessDays (startDate : Int) (businessDays : Int) : Int :=
  addBizLoop (4 * businessDays.toNat) startDate businessDays.toNat

/-- Number of business days among the `n` consecutive days `c, c+1, .., c+n-1`.
Closed form used to state what the fuelled loops compute. -/
def bizCount (c : Int) (n : Nat) : Nat :=
  (List.range n).countP (fun i : Nat => isBusinessDay (c + (i : Int)))

/-- Modelled from the spec's words: "number of business days strictly after
`start` and up to and including `end`" — the business days in the interval
`Ioc start end`. `countBusinessDays` is proved to agree with this. -/
def specBusinessDaysBetween (s e : Int) : Nat :=
  ((Finset.Ioc s e).filter (fun d => isBusinessDay d)).card

/-! ### Data rows consumed by `fetchData`

Only the fields the due-date engine reads are modelled. -/

/-- A `health_systems` row (joined onto its opportunity). -/
structure HealthSystem where
  name : Str
  deriving DecidableEq, Repr

/-- An `opportunities` row, with its joined health system
(`select('*, health_systems(*)')`). `status` is `null`able. -/
structure Opportunity where
  id : Str
  status : Option Str
  health_systems : HealthSystem
  deriving DecidableEq, Repr

/-- A `contacts` row. `opportunity_id` is nullable; `cadence_days` may be
absent (the source guards it with `contact.cadence_days || 10`). -/
structure Contact where
  id : Str
  opportunity_id : Option Str
  cadence_days : Option Int
  deriving DecidableEq, Repr

/-- An `outreach_logs` row. `contact_date` is the stored date string at
whole-day granularity: `some d` when `new Date(string)` parses to a valid
date (day number `d`), `none` when it yields an `Invalid Date` (`NaN`). -/
structure OutreachLog where
  contact_id : Str
  contact_date : Option Int
  contact_method : Str
  deriving DecidableEq, Repr

/-- The record pushed onto `allDueContacts` for one contact: the contact's own
fields (the `...contact` spread) plus the computed due information.
`due_date` is kept as a day number: the source stores `formatDate(dueDate)`
(a `YYYY-MM-DD` string, injective on day numbers) and re-parses it in the
filters, which is the identity at day granularity. -/
structure ContactWithDueInfo where
  contact : Contact
  health_system : HealthSystem
  opportunity : Opportunity
  last_contact_date : Option Int
  days_since_contact : Option Int
  days_overdue : Int
  due_date : Int
  is_rollover : Bool
  deriving DecidableEq, Repr

/-- The engine-level output of `fetchData`: the two ordered lists and the
two calendar facts it stores into component state. -/
structure EngineResult where
  todayContacts : List ContactWithDueInfo
  nextDayContacts : List ContactWithDueInfo
  nextBusinessDay : Int
  isBusinessDayToday : Bool
  deriving DecidableEq, Repr

/-- JS `contact.cadence_days || 10`: `null`/`undefined` and `0` are falsy and
give the default; every other number (negative ones included) is kept. -/
def jsOrDefault (v : Option Int) (dflt : Int) : Int :=
  match v with
  | none => dflt
  | some x => if x = 0 then dflt else x

/-- The opportunity filter `(o) => !o.status || o.status === 'prospect'`:
a `null` status and the empty string are falsy in JS. -/
def statusAllowsTodo (status : Option Str) : Bool :=
  match status with
  | none => true
  | some s => decide (s = []) || decide (s = "prospect".data)

/-- `allOppsData.filter(o => !o.status || o.status === 'prospect')`. -/
def filterOpps (allOppsData : List Opportunity) : List Opportunity :=
  allOppsData.filter (fun o => statusAllowsTodo o.status)

/-- `oppsMap[key]`: the map is keyed by the unique opportunity id, so the
first (and only) match in the filtered list is looked up. -/
def lookupOpp (oppsData : List Opportunity) (key : Str) : Option Opportunity :=
  oppsData.find? (fun o => decide (o.id = key))

/-- The `lastOutreach` map: `logsData` arrives ordered by `contact_date`
descending, and `if (!lastOutreach[log.contact_id])` keeps the first entry
seen per contact — i.e. the first matching log in list order. -/
def findLastOutreach (logsData : List OutreachLog) (cid : Str) : Option OutreachLog :=
  logsData.find? (fun l => decide (l.contact_id = cid))

/-- The `.in('opportunity_id', prospectOppIds)` query: contacts whose (non
null) `opportunity_id` is among the prospect opportunity ids. -/
def filterContacts (prospectOppIds : List Str) (contacts : List Contact) : List Contact :=
  contacts.filter (fun c =>
    match c.opportunity_id with
    | some oid => decide (oid ∈ prospectOppIds)
    | none => false)

/-- The body of the `forEach` over `contactsData` in `fetchData`, for one
contact. Returns

* `.ok none` when `oppsMap[contact.opportunity_id || '']` misses
  (`if (!opp) return;`),
* `.error ()` when a prior log exists but its date string is malformed: the
  `NaN` date then flows through `addBusinessDays` (whose loop still
  terminates, since `NaN !== 0 && NaN !== 6` is `true`) into
  `formatDate(dueDate)`, where `toISOString()` throws a `RangeError` —
  aborting the whole `fetchData` call,
* `.ok (some record)` otherwise, with the due fields computed as in the
  source: due date from the last outreach plus cadence (or today / the next
  business day when never contacted), calendar-day `daysSinceContact`,
  `daysOverdue = countBusinessDays(dueDate, today)` and the rollover flag
  `dueDate < today && isBizDay`. -/
def processContact (today : Int) (isBizDay : Bool) (nextBizDay : Int)
    (opp? : Option Opportunity) (last? : Option OutreachLog) (contact : Contact) :
    Except Unit (Option ContactWithDueInfo) :=
  match opp? with
  | none => Except.ok none
  | some opp =>
    match last? with
    | some last =>
      match last.contact_date with
      | none => Except.error ()
      | some lastContactDate =>
        let daysSinceContact : Int := today - lastContactDate
        let dueDate : Int := addBusinessDays lastContactDate (jsOrDefault contact.cadence_days 10)
        Except.ok (some
          { contact := contact
            health_system := opp.health_systems
            opportunity := opp
            last_contact_date := some lastContactDate
            days_since_contact := some daysSinceContact
            days_overdue := countBusinessDays dueDate today
            due_date := dueDate
            is_rollover := decide (dueDate < today) && isBizDay })
    | none =>
      let dueDate : Int := if isBizDay then today else nextBizDay
      Except.ok (some
        { contact := contact
          health_system := opp.health_systems
          opportunity := opp
          last_contact_date := none
          days_since_contact := none
          days_overdue := countBusinessDays dueDate today
          due_date := dueDate
          is_rollover := decide (dueDate < today) && isBizDay })

/-- The `forEach` over `contactsData` building `allDueContacts`, in list
order; a thrown exception (malformed date) aborts the whole traversal. -/
def buildDueContacts (today : Int) (isBizDay : Bool) (nextBizDay : Int)
    (oppsData : List Opportunity) (logsData : List OutreachLog) :
    List Contact → Except Unit (List ContactWithDueInfo)
  | [] => Except.ok []
  | c :: rest => do
    let r ← processContact today isBizDay nextBizDay
      (lookupOpp oppsData ((c.opportunity_id).getD []))
      (findLastOutreach logsData c.id) c
    let others ← buildDueContacts today isBizDay nextBizDay oppsData logsData rest
    match r with
    | none => Except.ok others
    | some info => Except.ok (info :: others)

/-- Embedding of `String.prototype.localeCompare` on account names, at the
en-locale primary collation strength: letters compare case-insensitively
(the locale's finer case tiebreak, which only separates strings equal up to
case, is not modelled). -/
def lowerChar (c : Char) : Char :=
  if 'A' ≤ c ∧ c ≤ 'Z' then Char.ofNat (c.toNat + 32) else c

/-- Lexicographic three-way comparison of character lists. -/
def lexCmp : Str → Str → Int
  | [], [] => 0
  | [], _ :: _ => -1
  | _ :: _, [] => 1
  | a :: as, b :: bs => if a < b then -1 else if b < a then 1 else lexCmp as bs

/-- `a.localeCompare(b)`: case-insensitive lexical comparison. -/
def localeCompare (a b : Str) : Int :=
  lexCmp (a.map lowerChar) (b.map lowerChar)

/-- The comparator of the `todaysDue` sort: rollovers first, then by
descending `days_overdue`, then by ascending account name. -/
def todayCmp (a b : ContactWithDueInfo) : Int :=
  if a.is_rollover ≠ b.is_rollover then (if a.is_rollover then -1 else 1)
  else if a.days_overdue ≠ b.days_overdue then b.days_overdue - a.days_overdue
  else localeCompare a.health_system.name b.health_system.name

/-- The comparator of the `nextDaysDue` sort: ascending account name only. -/
def nameCmp (a b : ContactWithDueInfo) : Int :=
  localeCompare a.health_system.name b.health_system.name

/-- `Array.prototype.sort(cmp)`: a sort placing `a` before `b` whenever
`cmp a b ≤ 0` (ECMAScript sorts are consistent with the comparator; ties may
go either way, and no claim below depends on tie order). -/
def jsSortBy (cmp : ContactWithDueInfo → ContactWithDueInfo → Int)
    (l : List ContactWithDueInfo) : List ContactWithDueInfo :=
  List.insertionSort (fun a b => cmp a b ≤ 0) l

/-- Upper bound on the number of loop iterations `addBizLoop` still needs:
one business-day unit takes at most 3 day-steps (a weekend is at most two
consecutive skipped days). Used to show the fuel of `addBusinessDays`
suffices. -/
def stepsNeeded (x : Int) : Nat → Nat
  | 0 => 0
  | r + 1 => (getNextBusinessDay x - x).toNat + 3 * r

/-- `fetchData`, from the computation of `today`'s calendar facts through the
two sorted result lists. The store reads (`supabase.from(...)`) are the
function's inputs: the raw opportunity rows (with joined health systems), the
raw contact rows, and the outreach logs ordered by date descending. -/
def fetchData (today : Int) (allOppsData : List Opportunity)
    (contactRows : List Contact) (logsData : List OutreachLog) :
    Except Unit EngineResult :=
  let isBizDay := isBusinessDay today
  let nextBizDay := getNextBusinessDay today
  let oppsData := filterOpps allOppsData
  let prospectOppIds := oppsData.map (fun o => o.id)
  if prospectOppIds.isEmpty then
    Except.ok
      { todayContacts := []
        nextDayContacts := []
        nextBusinessDay := nextBizDay
        isBusinessDayToday := isBizDay }
  else do
    let contactsData := filterContacts prospectOppIds contactRows
    let allDueContacts ← buildDueContacts today isBizDay nextBizDay oppsData logsData contactsData
    let todaysDue := jsSortBy todayCmp
      (allDueContacts.filter (fun c => decide (c.due_date ≤ today)))
    let nextDaysDue := jsSortBy nameCmp
      (allDueContacts.filter (fun c => decide (c.due_date = nextBizDay)))
    Except.ok
      { todayContacts := todaysDue
        nextDayContacts := nextDaysDue
        nextBusinessDay := nextBizDay
        isBusinessDayToday := isBizDay }


/-! ### Spec-side order relations and concrete example data -/

/-- The ordering the spec claims for the due-today list, stated from the
claim's words: all rollover items before all non-rollover items; within a
group, descending `days_overdue`; remaining ties by ascending account name
under the case-insensitive compare. -/
def dueTodayOrder (a b : ContactWithDueInfo) : Prop :=
  (a.is_rollover = true ∧ b.is_rollover = false) ∨
  (a.is_rollover = b.is_rollover ∧ b.days_overdue < a.days_overdue) ∨
  (a.is_rollover = b.is_rollover ∧ a.days_overdue = b.days_overdue ∧
    localeCompare a.health_system.name b.health_system.name ≤ 0)

/-- The ordering the spec claims for the due-next-business-day list:
ascending account name only. -/
def nameOrder (a b : ContactWithDueInfo) : Prop :=
  localeCompare a.health_system.name b.health_system.name ≤ 0

/-- Example data: today is day 6, a Wednesday (`getDay 6 = 3`). -/
def exToday : Int := 6

def exOppZ : Opportunity := { id := "o1".data, status := some "prospect".data, health_systems := { name := "Zeta".data } }

def exOppA : Opportunity := { id := "o2".data, status := none, health_systems := { name := "Alpha".data } }

def exOppM : Opportunity := { id := "o3".data, status := some "prospect".data, health_systems := { name := "Mid".data } }

def exOppB : Opportunity := { id := "o4".data, status := some "prospect".data, health_systems := { name := "Beta".data } }

def exOppL : Opportunity := { id := "o5".data, status := some "prospect".data, health_systems := { name := "alpha".data } }

def exOppActive : Opportunity := { id := "o6".data, status := some "active".data, health_systems := { name := "Hidden".data } }

def exOpps : List Opportunity := [exOppZ, exOppA, exOppM, exOppB, exOppL, exOppActive]

def exContacts : List Contact :=
  [ { id := "a".data, opportunity_id := some "o1".data, cadence_days := some 1 },
    { id := "b".data, opportunity_id := some "o2".data, cadence_days := some 1 },
    { id := "c".data, opportunity_id := some "o3".data, cadence_days := some 1 },
    { id := "d".data, opportunity_id := some "o4".data, cadence_days := some 1 },
    { id := "e".data, opportunity_id := some "o5".data, cadence_days := some 1 },
    { id := "f".data, opportunity_id := some "o6".data, cadence_days := some 1 } ]

def exLogs : List OutreachLog :=
  [ { contact_id := "a".data, contact_date := some (-4), contact_method := "call".data },
    { contact_id := "b".data, contact_date := some 0, contact_method := "email".data },
    { contact_id := "c".data, contact_date := some 5, contact_method := "call".data },
    { contact_id := "d".data, contact_date := some 6, contact_method := "call".data },
    { contact_id := "e".data, contact_date := some 6, contact_method := "call".data },
    { contact_id := "f".data, contact_date := some 0, contact_method := "call".data } ]

/-- The engine result on the example data (used by the concrete witnesses). -/
def exampleRun : EngineResult :=
  match fetchData exToday exOpps exContacts exLogs with
  | Except.ok r => r
  | Except.error _ =>
    { todayContacts := [], nextDayContacts := [], nextBusinessDay := 0, isBusinessDayToday := false }

/-- The `allDueContacts` stage on the example data. -/
def exampleAllDue : List ContactWithDueInfo :=
  match buildDueContacts exToday (isBusinessDay exToday) (getNextBusinessDay exToday)
      (filterOpps exOpps) exLogs
      (filterContacts ((filterOpps exOpps).map (fun o => o.id)) exContacts) with
  | Except.ok l => l
  | Except.error _ => []

/-- The first record of the example due-today list. -/
def exampleDueRecord : ContactWithDueInfo :=
  match exampleRun.todayContacts with
  | r :: _ => r
  | [] =>
    { contact := { id := [], opportunity_id := none, cadence_days := none }
      health_system := { name := [] }
      opportunity := { id := [], status := none, health_systems := { name := [] } }
      last_contact_date := none
      days_since_contact := none
      days_overdue := 0
      due_date := 0
      is_rollover := false }

/-- Single-contact example inputs for the per-contact witnesses. -/
def cexOpp : Opportunity := { id := "o".data, status := some "prospect".data, health_systems := { name := "Acme".data } }

def cexLog0 : OutreachLog := { contact_id := "c".data, contact_date := some 0, contact_method := "call".data }

/-- A log row whose stored date string does not parse (`Invalid Date`). -/
def cexBadLog : OutreachLog := { contact_id := "c".data, contact_date := none, contact_method := "call".data }

def cexContact10 : Contact := { id := "c".data, opportunity_id := some "o".data, cadence_days := some 10 }

def cexNegContact : Contact := { id := "c".data, opportunity_id := some "o".data, cadence_days := some (-3) }

def cexNoneContact : Contact := { id := "c".data, opportunity_id := some "o".data, cadence_days := none }

/-- The record the engine computes for `cexContact10` with a prior event on
day 0 and today = 6. -/
def examplePriorRecord : ContactWithDueInfo :=
  match processContact 6 true 7 (some cexOpp) (some cexLog0) cexContact10 with
  | Except.ok (some r) => r
  | _ =>
    { contact := cexContact10, health_system := { name := "Acme".data }, opportunity := cexOpp,
      last_contact_date := none, days_since_contact := none,
      days_overdue := 0, due_date := 0, is_rollover := false }

/-- The record the engine computes for a never-contacted `cexContact10` with
today = 6 (a Wednesday). -/
def exampleNeverRecord : ContactWithDueInfo :=
  match processContact 6 (isBusinessDay 6) (getNextBusinessDay 6) (some cexOpp) none cexContact10 with
  | Except.ok (some r) => r
  | _ =>
    { contact := cexContact10, health_system := { name := "Acme".data }, opportunity := cexOpp,
      last_contact_date := none, days_since_contact := none,
      days_overdue := 0, due_date := 0, is_rollover := false }

/-- The record the engine computes for `cexNoneContact` (missing cadence)
with a prior event on day 0 and today = 6. -/
def exampleDefaultRecord : ContactWithDueInfo :=
  match processContact 6 true 7 (some cexOpp) (some cexLog0) cexNoneContact with
  | Except.ok (some r) => r
  | _ =>
    { contact := cexNoneContact, health_system := { name := "Acme".data }, opportunity := cexOpp,
      last_contact_date := none, days_since_contact := none,
      days_overdue := 0, due_date := 0, is_rollover := false }

end ArubaCRM


namespace ArubaCRM

/-! ## Calendar lemmas -/

theorem isBusinessDay_true_iff (d : Int) :
    isBusinessDay d = true ↔ ((d + 4) % 7 ≠ 0 ∧ (d + 4) % 7 ≠ 6) := by
  simp [isBusinessDay, getDay]

theorem isBusinessDay_false_iff (d : Int) :
    isBusinessDay d = false ↔ ((d + 4) % 7 = 0 ∨ (d + 4) % 7 = 6) := by
  rw [← Bool.not_eq_true, isBusinessDay_true_iff]
  tauto

theorem getNextBusinessDay_spec (d : Int) :
    d < getNextBusinessDay d ∧ getNextBusinessDay d ≤ d + 3 ∧
    isBusinessDay (getNextBusinessDay d) = true ∧
    ∀ x : Int, d < x → x < getNextBusinessDay d → isBusinessDay x = false := by
  have step : ∀ (f : Nat) (x : Int),
      nextBizLoop (f + 1) x = if isBusinessDay x then x else nextBizLoop f (x + 1) :=
    fun f x => rfl
  unfold getNextBusinessDay
  rw [show (3 : Nat) = 2 + 1 from rfl, step]
  by_cases h1 : isBusinessDay (d + 1)
  · rw [if_pos h1]
    refine ⟨by omega, by omega, h1, ?_⟩
    intro x hx1 hx2
    omega
  · rw [if_neg h1, show (2 : Nat) = 1 + 1 from rfl, step]
    by_cases h2 : isBusinessDay (d + 1 + 1)
    · rw [if_pos h2]
      refine ⟨by omega, by omega, h2, ?_⟩
      intro x hx1 hx2
      have : x = d + 1 := by omega
      subst this
      simpa using h1
    · have h1' := (isBusinessDay_false_iff (d + 1)).mp (by simpa using h1)
      have h2' := (isBusinessDay_false_iff (d + 2)).mp
        (by rw [show d + 2 = d + 1 + 1 by ring]; simpa using h2)
      have h3 : isBusinessDay (d + 1 + 1 + 1) = true := by
        rw [isBusinessDay_true_iff]
        omega
      rw [if_neg h2, show (1 : Nat) = 0 + 1 from rfl, step, if_pos h3]
      refine ⟨by omega, by omega, h3, ?_⟩
      intro x hx1 hx2
      have : x = d + 1 ∨ x = d + 2 := by omega
      rcases this with h | h
      · subst h; simpa using h1
      · subst h
        rw [← Bool.not_eq_true]
        rw [show d + 2 = d + 1 + 1 by ring]
        exact h2

theorem getNextBusinessDay_gt (d : Int) : d < getNextBusinessDay d :=
  (getNextBusinessDay_spec d).1

theorem getNextBusinessDay_le (d : Int) : getNextBusinessDay d ≤ d + 3 :=
  (getNextBusinessDay_spec d).2.1

theorem isBusinessDay_getNextBusinessDay (d : Int) :
    isBusinessDay (getNextBusinessDay d) = true :=
  (getNextBusinessDay_spec d).2.2.1

theorem getNextBusinessDay_unique {d b : Int} (h1 : d < b) (h2 : isBusinessDay b = true)
    (h3 : ∀ x : Int, d < x → x < b → isBusinessDay x = false) :
    getNextBusinessDay d = b := by
  obtain ⟨hg1, _, hg3, hg4⟩ := getNextBusinessDay_spec d
  rcases lt_trichotomy (getNextBusinessDay d) b with h | h | h
  · have := h3 _ hg1 h
    rw [this] at hg3
    exact absurd hg3 (by simp)
  · exact h
  · have := hg4 b h1 h
    rw [this] at h2
    exact absurd h2 (by simp)

theorem getNextBusinessDay_of_isBusinessDay {d : Int} (h : isBusinessDay (d + 1) = true) :
    getNextBusinessDay d = d + 1 := by
  unfold getNextBusinessDay nextBizLoop
  simp [h]

theorem getNextBusinessDay_shift {d : Int} (h : isBusinessDay (d + 1) = false) :
    getNextBusinessDay (d + 1) = getNextBusinessDay d := by
  obtain ⟨hg1, _, hg3, hg4⟩ := getNextBusinessDay_spec d
  apply getNextBusinessDay_unique
  · rcases lt_or_eq_of_le (by omega : d + 1 ≤ getNextBusinessDay d) with hlt | heq
    · exact hlt
    · rw [← heq] at hg3
      rw [hg3] at h
      exact absurd h (by simp)
  · exact hg3
  · intro x hx1 hx2
    exact hg4 x (by omega) hx2

theorem bizCount_zero (c : Int) : bizCount c 0 = 0 := rfl

theorem bizCount_succ_front (c : Int) (n : Nat) :
    bizCount c (n + 1) = (if isBusinessDay c then 1 else 0) + bizCount (c + 1) n := by
  unfold bizCount
  rw [List.range_succ_eq_map, List.countP_cons, List.countP_map]
  have h2 : ((fun i : Nat => isBusinessDay (c + i)) ∘ Nat.succ)
      = fun i : Nat => isBusinessDay (c + 1 + i) := by
    funext i
    simp only [Function.comp]
    congr 1
    push_cast
    ring
  rw [h2]
  simp only [Nat.cast_zero, add_zero]
  by_cases hb : isBusinessDay c
  · simp [hb, Nat.add_comm]
  · simp [hb]

theorem bizCount_succ_back (c : Int) (n : Nat) :
    bizCount c (n + 1) = bizCount c n + (if isBusinessDay (c + n) then 1 else 0) := by
  unfold bizCount
  rw [List.range_succ, List.countP_append]
  by_cases hb : isBusinessDay (c + n)
  · simp [List.countP_cons, hb]
  · simp [List.countP_cons, hb]

theorem countBizLoop_eq :
    ∀ (fuel : Nat) (current endDate : Int) (count : Nat),
      (endDate + 1 - current).toNat < fuel →
      countBizLoop fuel current endDate count = count + bizCount current (endDate + 1 - current).toNat := by
  intro fuel
  induction fuel with
  | zero => intro c e cnt h; omega
  | succ f ih =>
    intro current endDate count h
    by_cases hc : current ≤ endDate
    · have hn : (endDate + 1 - current).toNat = (endDate + 1 - (current + 1)).toNat + 1 := by omega
      show (if current ≤ endDate then
          countBizLoop f (current + 1) endDate (if isBusinessDay current then count + 1 else count)
        else count) = _
      rw [if_pos hc, ih (current + 1) endDate _ (by omega), hn, bizCount_succ_front]
      by_cases hb : isBusinessDay current
      · rw [if_pos hb, if_pos hb]; omega
      · rw [if_neg hb, if_neg hb]; omega
    · show (if current ≤ endDate then
          countBizLoop f (current + 1) endDate (if isBusinessDay current then count + 1 else count)
        else count) = _
      rw [if_neg hc]
      have h0 : (endDate + 1 - current).toNat = 0 := by omega
      rw [h0, bizCount_zero]
      omega

theorem countBusinessDays_eq_bizCount (s e : Int) :
    countBusinessDays s e = (bizCount (s + 1) (e - s).toNat : Nat) := by
  unfold countBusinessDays
  have h1 : (e + 1 - (s + 1)) = e - s := by ring
  rw [countBizLoop_eq ((e - s).toNat + 1) (s + 1) e 0 (by omega), h1]
  norm_num


theorem countBusinessDays_of_le {s e : Int} (h : e ≤ s) : countBusinessDays s e = 0 := by
  rw [countBusinessDays_eq_bizCount]
  have h0 : (e - s).toNat = 0 := by omega
  rw [h0, bizCount_zero]
  rfl

theorem bizCount_mono (c : Int) {m n : Nat} (h : m ≤ n) : bizCount c m ≤ bizCount c n := by
  induction n, h using Nat.le_induction with
  | base => exact le_refl _
  | succ k hk ih =>
    rw [bizCount_succ_back]
    omega

theorem countBusinessDays_mono (s : Int) {e1 e2 : Int} (h : e1 ≤ e2) :
    countBusinessDays s e1 ≤ countBusinessDays s e2 := by
  rw [countBusinessDays_eq_bizCount, countBusinessDays_eq_bizCount]
  exact_mod_cast bizCount_mono (s + 1) (by omega : (e1 - s).toNat ≤ (e2 - s).toNat)

theorem countBusinessDays_nonneg (s e : Int) : 0 ≤ countBusinessDays s e := by
  rw [countBusinessDays_eq_bizCount]
  exact_mod_cast Nat.zero_le _

theorem bizCount_eq_spec : ∀ (n : Nat) (s : Int),
    bizCount (s + 1) n = specBusinessDaysBetween s (s + n) := by
  intro n
  induction n with
  | zero =>
    intro s
    simp [bizCount_zero, specBusinessDaysBetween]
  | succ m ih =>
    intro s
    rw [bizCount_succ_back, ih s]
    unfold specBusinessDaysBetween
    have hio : Finset.Ioc s (s + ((m : Nat) + 1 : Nat)) = insert (s + m + 1) (Finset.Ioc s (s + m)) := by
      ext x
      simp only [Finset.mem_Ioc, Finset.mem_insert]
      push_cast
      omega
    rw [hio, Finset.filter_insert]
    have harg : (s + 1) + (m : Int) = s + m + 1 := by ring
    by_cases hb : isBusinessDay (s + m + 1) = true
    · rw [if_pos hb]
      rw [Finset.card_insert_of_not_mem (by simp [Finset.mem_filter, Finset.mem_Ioc])]
      rw [harg, hb]
      simp [Nat.add_comm]
    · rw [if_neg hb]
      rw [harg]
      rw [Bool.not_eq_true] at hb
      rw [hb]
      simp

theorem countBusinessDays_eq_spec (s e : Int) :
    countBusinessDays s e = (specBusinessDaysBetween s e : Nat) := by
  rcases le_or_lt s e with h | h
  · have he : e = s + ((e - s).toNat : Int) := by omega
    rw [countBusinessDays_eq_bizCount]
    rw [bizCount_eq_spec ((e - s).toNat) s]
    rw [← he]
  · rw [countBusinessDays_of_le h.le]
    unfold specBusinessDaysBetween
    rw [Finset.Ioc_eq_empty (by omega)]
    simp

theorem bizCount_add (c : Int) (m n : Nat) :
    bizCount c (m + n) = bizCount c m + bizCount (c + m) n := by
  induction n with
  | zero => simp [bizCount_zero]
  | succ k ih =>
    have h1 : m + (k + 1) = (m + k) + 1 := by ring
    rw [h1, bizCount_succ_back, ih, bizCount_succ_back]
    have h2 : c + ((m : Int) + (k : Int)) = (c + m) + k := by ring
    push_cast
    rw [h2]
    ring

theorem countBusinessDays_split {d m e : Int} (h1 : d ≤ m) (h2 : m ≤ e) :
    countBusinessDays d e = countBusinessDays d m + countBusinessDays m e := by
  rw [countBusinessDays_eq_bizCount, countBusinessDays_eq_bizCount, countBusinessDays_eq_bizCount]
  have hn : (e - d).toNat = (m - d).toNat + (e - m).toNat := by omega
  rw [hn, bizCount_add]
  have harg : (d + 1) + ((m - d).toNat : Int) = m + 1 := by omega
  rw [harg]
  push_cast
  ring

theorem countBusinessDays_getNextBusinessDay (d : Int) :
    countBusinessDays d (getNextBusinessDay d) = 1 := by
  obtain ⟨hg1, hg2, hg3, hg4⟩ := getNextBusinessDay_spec d
  rw [countBusinessDays_eq_bizCount]
  have hcase : (getNextBusinessDay d - d).toNat = 1 ∨ (getNextBusinessDay d - d).toNat = 2 ∨
      (getNextBusinessDay d - d).toNat = 3 := by omega
  rcases hcase with h | h | h
  · have hg : getNextBusinessDay d = d + 1 := by omega
    rw [h, show (1 : Nat) = 0 + 1 from rfl, bizCount_succ_back, bizCount_zero]
    rw [hg] at hg3
    norm_num
    exact hg3
  · have hg : getNextBusinessDay d = d + 2 := by omega
    have hb1 : isBusinessDay (d + 1) = false := hg4 (d + 1) (by omega) (by omega)
    rw [h, show (2 : Nat) = 1 + 1 from rfl, bizCount_succ_back,
      show (1 : Nat) = 0 + 1 from rfl, bizCount_succ_back, bizCount_zero]
    rw [hg] at hg3
    norm_num
    rw [show d + 1 + 1 = d + 2 by ring, hb1, hg3]
    norm_num
  · have hg : getNextBusinessDay d = d + 3 := by omega
    have hb1 : isBusinessDay (d + 1) = false := hg4 (d + 1) (by omega) (by omega)
    have hb2 : isBusinessDay (d + 2) = false := hg4 (d + 2) (by omega) (by omega)
    rw [h, show (3 : Nat) = 1 + 1 + 1 from rfl, bizCount_succ_back, bizCount_succ_back,
      show (1 : Nat) = 0 + 1 from rfl, bizCount_succ_back, bizCount_zero]
    rw [hg] at hg3
    norm_num
    rw [show d + 1 + 1 = d + 2 by ring, show d + 1 + 2 = d + 3 by ring, hb1, hb2, hg3]
    norm_num


theorem stepsNeeded_le (x : Int) (r : Nat) : stepsNeeded x r ≤ 3 * r := by
  cases r with
  | zero => exact le_refl _
  | succ k =>
    show (getNextBusinessDay x - x).toNat + 3 * k ≤ 3 * (k + 1)
    have h1 := getNextBusinessDay_le x
    have h2 := getNextBusinessDay_gt x
    omega

theorem addBizLoop_eq :
    ∀ (fuel : Nat) (result : Int) (remaining : Nat),
      stepsNeeded result remaining ≤ fuel →
      addBizLoop fuel result remaining = getNextBusinessDay^[remaining] result := by
  intro fuel
  induction fuel with
  | zero =>
    intro result remaining h
    cases remaining with
    | zero => rfl
    | succ r =>
      exfalso
      have h1 := getNextBusinessDay_gt result
      have h2 : stepsNeeded result (r + 1) = (getNextBusinessDay result - result).toNat + 3 * r := rfl
      omega
  | succ f ih =>
    intro result remaining h
    cases remaining with
    | zero => rfl
    | succ r =>
      have hgt := getNextBusinessDay_gt result
      have hle := getNextBusinessDay_le result
      have hs : stepsNeeded result (r + 1) = (getNextBusinessDay result - result).toNat + 3 * r := rfl
      show (if isBusinessDay (result + 1) then addBizLoop f (result + 1) r
        else addBizLoop f (result + 1) (r + 1)) = _
      by_cases hb : isBusinessDay (result + 1)
      · rw [if_pos hb]
        have hnb : getNextBusinessDay result = result + 1 := getNextBusinessDay_of_isBusinessDay hb
        rw [ih (result + 1) r (le_trans (stepsNeeded_le _ _) (by omega))]
        rw [Function.iterate_succ_apply, hnb]
      · rw [if_neg hb]
        have hb' : isBusinessDay (result + 1) = false := by simpa using hb
        have hshift : getNextBusinessDay (result + 1) = getNextBusinessDay result :=
          getNextBusinessDay_shift hb'
        have hs' : stepsNeeded (result + 1) (r + 1)
            = (getNextBusinessDay (result + 1) - (result + 1)).toNat + 3 * r := rfl
        rw [ih (result + 1) (r + 1) (by rw [hs', hshift]; omega)]
        rw [Function.iterate_succ_apply, Function.iterate_succ_apply, hshift]

theorem addBusinessDays_eq_iterate (d n : Int) :
    addBusinessDays d n = getNextBusinessDay^[n.toNat] d := by
  unfold addBusinessDays
  exact addBizLoop_eq (4 * n.toNat) d n.toNat (le_trans (stepsNeeded_le _ _) (by omega))


theorem le_iterate_getNextBusinessDay (d : Int) : ∀ k : Nat, d ≤ getNextBusinessDay^[k] d := by
  intro k
  induction k with
  | zero => simp
  | succ j ih =>
    rw [Function.iterate_succ_apply']
    have := getNextBusinessDay_gt (getNextBusinessDay^[j] d)
    omega

theorem isBusinessDay_iterate_getNextBusinessDay (d : Int) {k : Nat} (hk : 1 ≤ k) :
    isBusinessDay (getNextBusinessDay^[k] d) = true := by
  cases k with
  | zero => omega
  | succ j =>
    rw [Function.iterate_succ_apply']
    exact isBusinessDay_getNextBusinessDay _

theorem countBusinessDays_iterate_getNextBusinessDay (d : Int) :
    ∀ k : Nat, countBusinessDays d (getNextBusinessDay^[k] d) = k := by
  intro k
  induction k with
  | zero =>
    simp [countBusinessDays_of_le (le_refl d)]
  | succ j ih =>
    have h1 : d ≤ getNextBusinessDay^[j] d := le_iterate_getNextBusinessDay d j
    have h2 : getNextBusinessDay^[j] d ≤ getNextBusinessDay^[j + 1] d := by
      rw [Function.iterate_succ_apply']
      exact (getNextBusinessDay_gt _).le
    rw [countBusinessDays_split h1 h2, ih, Function.iterate_succ_apply',
      countBusinessDays_getNextBusinessDay]
    push_cast
    ring


/-! ## Claim theorems: the business-day calendar -/

/-- C8: `isBusinessDay` returns false exactly when the date falls on Saturday
(`getDay = 6`) or Sunday (`getDay = 0`), and true exactly for Monday through
Friday (`getDay` 1..5); no holiday calendar is considered. -/
theorem isBusinessDay_weekend_spec (d : Int) :
    (isBusinessDay d = false ↔ (getDay d = 6 ∨ getDay d = 0)) ∧
    (isBusinessDay d = true ↔ (1 ≤ getDay d ∧ getDay d ≤ 5)) := by
  constructor
  · rw [isBusinessDay_false_iff]
    unfold getDay
    omega
  · rw [isBusinessDay_true_iff]
    unfold getDay
    omega

/-- C4: for every date `d` and positive `n`, `addBusinessDays d n` lands on a
business day, and exactly `n` business days lie strictly after `d` and up to
and including the result — `countBusinessDays d (addBusinessDays d n) = n`,
with the count ranging over `Ioc d _`, so `d` itself is never counted. -/
theorem addBusinessDays_count_spec (d n : Int) (hn : 1 ≤ n) :
    isBusinessDay (addBusinessDays d n) = true ∧
    countBusinessDays d (addBusinessDays d n) = n ∧
    (specBusinessDaysBetween d (addBusinessDays d n) : Int) = n := by
  have hk : 1 ≤ n.toNat := by omega
  have hcount : countBusinessDays d (addBusinessDays d n) = n := by
    rw [addBusinessDays_eq_iterate, countBusinessDays_iterate_getNextBusinessDay]
    omega
  refine ⟨?_, hcount, ?_⟩
  · rw [addBusinessDays_eq_iterate]
    exact isBusinessDay_iterate_getNextBusinessDay d hk
  · rw [← countBusinessDays_eq_spec]
    exact hcount

/-- Witness for C4 at `d = 0` (a Thursday), `n = 3`. -/
theorem addBusinessDays_count_spec_witness :
    (1 : Int) ≤ 3 ∧
    (isBusinessDay (addBusinessDays 0 3) = true ∧
      countBusinessDays 0 (addBusinessDays 0 3) = 3 ∧
      (specBusinessDaysBetween 0 (addBusinessDays 0 3) : Int) = 3) :=
  ⟨by decide, addBusinessDays_count_spec 0 3 (by decide)⟩

/-- C5: `countBusinessDays start end` equals the number of business days
strictly after `start` and up to and including `end` (the business days of
`Ioc start end`); it is 0 whenever `end ≤ start`; and for fixed `start` it is
monotonically non-decreasing in `end`. -/
theorem countBusinessDays_spec (s e e2 : Int) :
    countBusinessDays s e = (specBusinessDaysBetween s e : Int) ∧
    (e ≤ s → countBusinessDays s e = 0) ∧
    (e ≤ e2 → countBusinessDays s e ≤ countBusinessDays s e2) := by
  refine ⟨countBusinessDays_eq_spec s e, ?_, ?_⟩
  · intro h
    exact countBusinessDays_of_le h
  · intro h
    exact countBusinessDays_mono s h

/-- Witness for C5 using both inner hypotheses at concrete dates. -/
theorem countBusinessDays_spec_witness :
    countBusinessDays 2 1 = 0 ∧ countBusinessDays 0 1 ≤ countBusinessDays 0 8 :=
  ⟨(countBusinessDays_spec 2 1 8).2.1 (by decide),
   (countBusinessDays_spec 0 1 8).2.2 (by decide)⟩

/-- C10: the calendar operations terminate on every input. The fuelled
`getNextBusinessDay` always lands between 1 and 3 calendar days strictly
after `d`; `addBusinessDays d n` with `n ≤ 0` exits its loop immediately and
returns `d` unchanged (for any `d`, weekend days included); and the
`countBusinessDays` loop terminates with the closed-form interval count for
all date pairs. -/
theorem calendar_termination_spec (d n s e : Int) (hn : n ≤ 0) :
    d + 1 ≤ getNextBusinessDay d ∧ getNextBusinessDay d ≤ d + 3 ∧
    addBusinessDays d n = d ∧
    countBusinessDays s e = (specBusinessDaysBetween s e : Int) := by
  refine ⟨?_, getNextBusinessDay_le d, ?_, countBusinessDays_eq_spec s e⟩
  · have := getNextBusinessDay_gt d
    omega
  · rw [addBusinessDays_eq_iterate]
    have h0 : n.toNat = 0 := by omega
    rw [h0]
    rfl

/-- Witness for C10 at `d = 2` (a Saturday), `n = -5`. -/
theorem calendar_termination_spec_witness :
    (-5 : Int) ≤ 0 ∧
    (2 + 1 ≤ getNextBusinessDay 2 ∧ getNextBusinessDay 2 ≤ 2 + 3 ∧
      addBusinessDays 2 (-5) = 2 ∧
      countBusinessDays 0 9 = (specBusinessDaysBetween 0 9 : Int)) :=
  ⟨by decide, calendar_termination_spec 2 (-5) 0 9 (by decide)⟩


/-! ## Engine lemmas -/

theorem processContact_fields {today : Int} {ib : Bool} {nbd : Int}
    {opp? : Option Opportunity} {last? : Option OutreachLog} {c : Contact}
    {r : ContactWithDueInfo}
    (h : processContact today ib nbd opp? last? c = Except.ok (some r)) :
    r.is_rollover = (decide (r.due_date < today) && ib) ∧
    r.days_overdue = countBusinessDays r.due_date today ∧
    r.contact = c ∧
    ∃ opp, opp? = some opp ∧ r.opportunity = opp ∧ r.health_system = opp.health_systems := by
  cases opp? with
  | none => exact absurd h (by simp [processContact])
  | some opp =>
    cases last? with
    | some last =>
      cases hld : last.contact_date with
      | none =>
        rw [processContact, hld] at h
        exact absurd h (by simp)
      | some ld =>
        rw [processContact, hld] at h
        simp only [Except.ok.injEq, Option.some.injEq] at h
        subst h
        exact ⟨rfl, rfl, rfl, opp, rfl, rfl, rfl⟩
    | none =>
      rw [processContact] at h
      simp only [Except.ok.injEq, Option.some.injEq] at h
      subst h
      exact ⟨rfl, rfl, rfl, opp, rfl, rfl, rfl⟩

theorem buildDueContacts_mem {today : Int} {ib : Bool} {nbd : Int}
    {opps : List Opportunity} {logs : List OutreachLog} :
    ∀ {cs : List Contact} {l : List ContactWithDueInfo},
      buildDueContacts today ib nbd opps logs cs = Except.ok l →
      ∀ r ∈ l, ∃ c ∈ cs,
        processContact today ib nbd (lookupOpp opps ((c.opportunity_id).getD []))
          (findLastOutreach logs c.id) c = Except.ok (some r) := by
  intro cs
  induction cs with
  | nil =>
    intro l h r hr
    rw [buildDueContacts] at h
    simp only [Except.ok.injEq] at h
    subst h
    exact absurd hr (by simp)
  | cons c rest ih =>
    intro l h r hr
    rw [buildDueContacts] at h
    cases hp : processContact today ib nbd (lookupOpp opps ((c.opportunity_id).getD []))
        (findLastOutreach logs c.id) c with
    | error e =>
      rw [hp] at h
      exact absurd h (by simp [Bind.bind, Except.bind])
    | ok ro =>
      rw [hp] at h
      cases hb : buildDueContacts today ib nbd opps logs rest with
      | error e =>
        rw [hb] at h
        cases ro with
        | none => exact absurd h (by simp [Bind.bind, Except.bind])
        | some info => exact absurd h (by simp [Bind.bind, Except.bind])
      | ok others =>
        rw [hb] at h
        cases ro with
        | none =>
          simp only [Bind.bind, Except.bind, Except.ok.injEq] at h
          subst h
          obtain ⟨c0, hc0, hpc0⟩ := ih hb r hr
          exact ⟨c0, by simp [hc0], hpc0⟩
        | some info =>
          simp only [Bind.bind, Except.bind, Except.ok.injEq] at h
          subst h
          rcases List.mem_cons.mp hr with hinfo | hrest
          · subst hinfo
            exact ⟨c, by simp, hp⟩
          · obtain ⟨c0, hc0, hpc0⟩ := ih hb r hrest
            exact ⟨c0, by simp [hc0], hpc0⟩

theorem fetchData_ok_decompose {today : Int} {allOpps : List Opportunity}
    {cs : List Contact} {logs : List OutreachLog} {res : EngineResult}
    (h : fetchData today allOpps cs logs = Except.ok res) :
    res.nextBusinessDay = getNextBusinessDay today ∧
    res.isBusinessDayToday = isBusinessDay today ∧
    ∃ allDue,
      buildDueContacts today (isBusinessDay today) (getNextBusinessDay today)
        (filterOpps allOpps) logs
        (filterContacts ((filterOpps allOpps).map (fun o => o.id)) cs) = Except.ok allDue ∧
      res.todayContacts = jsSortBy todayCmp
        (allDue.filter (fun c => decide (c.due_date ≤ today))) ∧
      res.nextDayContacts = jsSortBy nameCmp
        (allDue.filter (fun c => decide (c.due_date = getNextBusinessDay today))) := by
  rw [fetchData] at h
  by_cases hemp : ((filterOpps allOpps).map (fun o => o.id)).isEmpty
  · rw [if_pos hemp] at h
    simp only [Except.ok.injEq] at h
    subst h
    have hids : (filterOpps allOpps).map (fun o => o.id) = [] := by
      exact List.isEmpty_iff.mp hemp
    have hfc : filterContacts ((filterOpps allOpps).map (fun o => o.id)) cs = [] := by
      rw [hids]
      unfold filterContacts
      rw [List.filter_eq_nil_iff]
      intro c hc
      cases c.opportunity_id with
      | none => simp
      | some oid => simp
    refine ⟨rfl, rfl, [], ?_, rfl, rfl⟩
    rw [hfc, buildDueContacts]
  · rw [if_neg hemp] at h
    simp only [Bind.bind, Except.bind] at h
    cases hb : buildDueContacts today (isBusinessDay today) (getNextBusinessDay today)
        (filterOpps allOpps) logs
        (filterContacts ((filterOpps allOpps).map (fun o => o.id)) cs) with
    | error e =>
      rw [hb] at h
      simp at h
    | ok allDue =>
      rw [hb] at h
      simp only [Except.ok.injEq] at h
      subst h
      exact ⟨rfl, rfl, allDue, rfl, rfl, rfl⟩


/-! ## Comparator lemmas -/

theorem lexCmp_nil_le (b : Str) : lexCmp [] b ≤ 0 := by
  cases b <;> simp [lexCmp]

theorem lexCmp_trans : ∀ (a b c : Str), lexCmp a b ≤ 0 → lexCmp b c ≤ 0 → lexCmp a c ≤ 0 := by
  intro a
  induction a with
  | nil => intro b c h1 h2; exact lexCmp_nil_le c
  | cons x xs ih =>
    intro b c h1 h2
    cases b with
    | nil => simp [lexCmp] at h1
    | cons y ys =>
      cases c with
      | nil => simp [lexCmp] at h2
      | cons z zs =>
        simp only [lexCmp] at h1 h2 ⊢
        by_cases hxy : x < y
        · by_cases hyz : y < z
          · simp [lt_trans hxy hyz]
          · by_cases hzy : z < y
            · simp [hyz, hzy] at h2
            · have hyez : y = z := le_antisymm (not_lt.mp hzy) (not_lt.mp hyz)
              subst hyez
              simp [hxy]
        · by_cases hyx : y < x
          · simp [hxy, hyx] at h1
          · have hxey : x = y := le_antisymm (not_lt.mp hyx) (not_lt.mp hxy)
            subst hxey
            simp [lt_irrefl] at h1
            by_cases hxz : x < z
            · simp [hxz]
            · by_cases hzx : z < x
              · simp [hxz, hzx] at h2
              · have hxez : x = z := le_antisymm (not_lt.mp hzx) (not_lt.mp hxz)
                subst hxez
                simp only [lt_irrefl, if_false] at h2 ⊢
                exact ih ys zs h1 h2

theorem lexCmp_total : ∀ (a b : Str), lexCmp a b ≤ 0 ∨ lexCmp b a ≤ 0 := by
  intro a
  induction a with
  | nil => intro b; exact Or.inl (lexCmp_nil_le b)
  | cons x xs ih =>
    intro b
    cases b with
    | nil => exact Or.inr (lexCmp_nil_le _)
    | cons y ys =>
      simp only [lexCmp]
      by_cases hxy : x < y
      · left; simp [hxy]
      · by_cases hyx : y < x
        · right; simp [hyx]
        · have hxey : x = y := le_antisymm (not_lt.mp hyx) (not_lt.mp hxy)
          subst hxey
          rcases ih ys with h | h
          · left; simpa [lt_irrefl] using h
          · right; simpa [lt_irrefl] using h

theorem localeCompare_trans {a b c : Str} (h1 : localeCompare a b ≤ 0)
    (h2 : localeCompare b c ≤ 0) : localeCompare a c ≤ 0 :=
  lexCmp_trans _ _ _ h1 h2

theorem localeCompare_total (a b : Str) : localeCompare a b ≤ 0 ∨ localeCompare b a ≤ 0 :=
  lexCmp_total _ _

theorem innerCmp_trans {oa ob oc : Int} {na nb nc : Str}
    (h1 : (if oa ≠ ob then ob - oa else localeCompare na nb) ≤ 0)
    (h2 : (if ob ≠ oc then oc - ob else localeCompare nb nc) ≤ 0) :
    (if oa ≠ oc then oc - oa else localeCompare na nc) ≤ 0 := by
  rcases eq_or_ne oa ob with e1 | e1
  · subst e1
    rw [if_neg (by simp)] at h1
    rcases eq_or_ne oa oc with e2 | e2
    · subst e2
      rw [if_neg (by simp)] at h2 ⊢
      exact localeCompare_trans h1 h2
    · rw [if_pos e2] at h2 ⊢
      exact h2
  · rw [if_pos e1] at h1
    rcases eq_or_ne ob oc with e2 | e2
    · subst e2
      rw [if_pos e1]
      exact h1
    · rw [if_pos e2] at h2
      rcases eq_or_ne oa oc with e3 | e3
      · exfalso; omega
      · rw [if_pos e3]; omega

theorem innerCmp_total (oa ob : Int) (na nb : Str) :
    (if oa ≠ ob then ob - oa else localeCompare na nb) ≤ 0 ∨
    (if ob ≠ oa then oa - ob else localeCompare nb na) ≤ 0 := by
  rcases eq_or_ne oa ob with e | e
  · subst e
    rw [if_neg (by simp), if_neg (by simp)]
    exact localeCompare_total na nb
  · rw [if_pos e, if_pos (Ne.symm e)]
    omega

theorem todayCmp_eq_inner {a b : ContactWithDueInfo} (hab : a.is_rollover = b.is_rollover) :
    todayCmp a b = (if a.days_overdue ≠ b.days_overdue then b.days_overdue - a.days_overdue
      else localeCompare a.health_system.name b.health_system.name) := by
  unfold todayCmp
  rw [if_neg (by simp [hab])]

theorem todayCmp_eq_roll {a b : ContactWithDueInfo} (hab : a.is_rollover ≠ b.is_rollover) :
    todayCmp a b = (if a.is_rollover = true then (-1 : Int) else 1) := by
  unfold todayCmp
  rw [if_pos hab]

theorem todayCmp_trans {a b c : ContactWithDueInfo}
    (h1 : todayCmp a b ≤ 0) (h2 : todayCmp b c ≤ 0) : todayCmp a c ≤ 0 := by
  by_cases hab : a.is_rollover = b.is_rollover
  · by_cases hbc : b.is_rollover = c.is_rollover
    · rw [todayCmp_eq_inner hab] at h1
      rw [todayCmp_eq_inner hbc] at h2
      rw [todayCmp_eq_inner (hab.trans hbc)]
      exact innerCmp_trans h1 h2
    · rw [todayCmp_eq_roll hbc] at h2
      rw [todayCmp_eq_roll (by rw [hab]; exact hbc)]
      rw [hab]
      exact h2
  · rw [todayCmp_eq_roll hab] at h1
    have hav : a.is_rollover = true := by
      cases hv : a.is_rollover
      · rw [hv] at h1; simp at h1
      · rfl
    by_cases hbc : b.is_rollover = c.is_rollover
    · rw [todayCmp_eq_roll (by rw [← hbc]; exact hab), hav]
      norm_num
    · have hbv : b.is_rollover = false := by
        cases hv : b.is_rollover
        · rfl
        · exact absurd (hav.trans hv.symm) hab
      rw [todayCmp_eq_roll hbc, hbv] at h2
      simp at h2

theorem todayCmp_total (a b : ContactWithDueInfo) : todayCmp a b ≤ 0 ∨ todayCmp b a ≤ 0 := by
  by_cases hab : a.is_rollover = b.is_rollover
  · rw [todayCmp_eq_inner hab, todayCmp_eq_inner hab.symm]
    exact innerCmp_total _ _ _ _
  · rw [todayCmp_eq_roll hab, todayCmp_eq_roll (Ne.symm hab)]
    cases hav : a.is_rollover
    · right
      have hbv : b.is_rollover = true := by
        cases hv : b.is_rollover
        · exact absurd (hav.trans hv.symm) hab
        · rfl
      rw [hbv]
      norm_num
    · left
      norm_num

theorem todayCmp_le_imp_dueTodayOrder {a b : ContactWithDueInfo}
    (h : todayCmp a b ≤ 0) : dueTodayOrder a b := by
  unfold dueTodayOrder
  by_cases hab : a.is_rollover = b.is_rollover
  · rw [todayCmp_eq_inner hab] at h
    by_cases hod : a.days_overdue = b.days_overdue
    · rw [if_neg (by simp [hod])] at h
      exact Or.inr (Or.inr ⟨hab, hod, h⟩)
    · rw [if_pos hod] at h
      exact Or.inr (Or.inl ⟨hab, by omega⟩)
  · rw [todayCmp_eq_roll hab] at h
    have hav : a.is_rollover = true := by
      cases hv : a.is_rollover
      · rw [hv] at h; simp at h
      · rfl
    have hbv : b.is_rollover = false := by
      cases hv : b.is_rollover
      · rfl
      · exact absurd (hav.trans hv.symm) hab
    exact Or.inl ⟨hav, hbv⟩

theorem jsSortBy_pairwise (cmp : ContactWithDueInfo → ContactWithDueInfo → Int)
    (htrans : ∀ {a b c}, cmp a b ≤ 0 → cmp b c ≤ 0 → cmp a c ≤ 0)
    (htotal : ∀ a b, cmp a b ≤ 0 ∨ cmp b a ≤ 0) (l : List ContactWithDueInfo) :
    (jsSortBy cmp l).Pairwise (fun a b => cmp a b ≤ 0) := by
  unfold jsSortBy
  letI : IsTotal ContactWithDueInfo (fun a b => cmp a b ≤ 0) := ⟨htotal⟩
  letI : IsTrans ContactWithDueInfo (fun a b => cmp a b ≤ 0) := ⟨fun a b c => htrans⟩
  exact List.sorted_insertionSort _ l

theorem mem_jsSortBy {cmp : ContactWithDueInfo → ContactWithDueInfo → Int}
    {l : List ContactWithDueInfo} {r : ContactWithDueInfo} :
    r ∈ jsSortBy cmp l ↔ r ∈ l := by
  unfold jsSortBy
  exact (List.perm_insertionSort _ l).mem_iff


/-! ## Claim theorems: the cadence due-date engine -/

/-- C1: for every contact with a prior outreach event (valid date `ld`) and a
positive stored cadence `k`, the engine computes
`dueDate = addBusinessDays ld k`, `daysSinceContact = today - ld` (calendar
days, not business days), and `daysOverdue = countBusinessDays dueDate today`,
which is 0 whenever `dueDate ≥ today`. -/
theorem processContact_prior_event_spec (today : Int) (ib : Bool) (nbd : Int)
    (opp : Opportunity) (last : OutreachLog) (c : Contact) (ld k : Int)
    (r : ContactWithDueInfo)
    (hdate : last.contact_date = some ld)
    (hcad : c.cadence_days = some k) (hk : 1 ≤ k)
    (h : processContact today ib nbd (some opp) (some last) c = Except.ok (some r)) :
    r.due_date = addBusinessDays ld k ∧
    r.days_since_contact = some (today - ld) ∧
    r.days_overdue = countBusinessDays r.due_date today ∧
    (today ≤ r.due_date → r.days_overdue = 0) := by
  rw [processContact, hdate] at h
  simp only [Except.ok.injEq, Option.some.injEq] at h
  subst h
  have hjs : jsOrDefault c.cadence_days 10 = k := by
    rw [hcad]
    show (if k = 0 then (10 : Int) else k) = k
    rw [if_neg (by omega)]
  refine ⟨?_, rfl, rfl, ?_⟩
  · show addBusinessDays ld (jsOrDefault c.cadence_days 10) = addBusinessDays ld k
    rw [hjs]
  · intro hle
    exact countBusinessDays_of_le hle

/-- Witness for C1: contact with cadence 10, last outreach on day 0, today
day 6. -/
theorem processContact_prior_event_spec_witness :
    examplePriorRecord.due_date = addBusinessDays 0 10 ∧
    examplePriorRecord.days_since_contact = some (6 - 0) ∧
    examplePriorRecord.days_overdue = countBusinessDays examplePriorRecord.due_date 6 ∧
    ((6 : Int) ≤ examplePriorRecord.due_date → examplePriorRecord.days_overdue = 0) :=
  processContact_prior_event_spec 6 true 7 cexOpp cexLog0 cexContact10 0 10
    examplePriorRecord rfl rfl (by decide) rfl

/-- C2: with today at date-only granularity, every record the engine builds
has its rollover flag true exactly when `dueDate < today` and today is a
business day; a record is in the due-today list exactly when it was built and
`dueDate ≤ today`; and in the due-next-business-day list exactly when it was
built and `dueDate` equals the next business day after today. -/
theorem fetchData_classification_spec (today : Int) (allOpps : List Opportunity)
    (cs : List Contact) (logs : List OutreachLog) (res : EngineResult)
    (allDue : List ContactWithDueInfo) (r : ContactWithDueInfo)
    (hdue : buildDueContacts today (isBusinessDay today) (getNextBusinessDay today)
      (filterOpps allOpps) logs
      (filterContacts ((filterOpps allOpps).map (fun o => o.id)) cs) = Except.ok allDue)
    (h : fetchData today allOpps cs logs = Except.ok res) :
    (r ∈ allDue → (r.is_rollover = true ↔ (r.due_date < today ∧ isBusinessDay today = true))) ∧
    (r ∈ res.todayContacts ↔ (r ∈ allDue ∧ r.due_date ≤ today)) ∧
    (r ∈ res.nextDayContacts ↔ (r ∈ allDue ∧ r.due_date = getNextBusinessDay today)) := by
  obtain ⟨-, -, allDue', hdue', htoday, hnext⟩ := fetchData_ok_decompose h
  have hEq : allDue = allDue' := Except.ok.inj (hdue.symm.trans hdue')
  subst hEq
  refine ⟨?_, ?_, ?_⟩
  · intro hr
    obtain ⟨c, hc, hpc⟩ := buildDueContacts_mem hdue r hr
    obtain ⟨hroll, -, -, -⟩ := processContact_fields hpc
    rw [hroll]
    simp
  · rw [htoday, mem_jsSortBy, List.mem_filter]
    simp
  · rw [hnext, mem_jsSortBy, List.mem_filter]
    simp

/-- Witness for C2 on the example data. -/
theorem fetchData_classification_spec_witness :
    (exampleDueRecord ∈ exampleAllDue →
      (exampleDueRecord.is_rollover = true ↔
        (exampleDueRecord.due_date < exToday ∧ isBusinessDay exToday = true))) ∧
    (exampleDueRecord ∈ exampleRun.todayContacts ↔
      (exampleDueRecord ∈ exampleAllDue ∧ exampleDueRecord.due_date ≤ exToday)) ∧
    (exampleDueRecord ∈ exampleRun.nextDayContacts ↔
      (exampleDueRecord ∈ exampleAllDue ∧
        exampleDueRecord.due_date = getNextBusinessDay exToday)) :=
  fetchData_classification_spec exToday exOpps exContacts exLogs exampleRun
    exampleAllDue exampleDueRecord rfl rfl

/-- C3: the due-today list is ordered with rollover items before non-rollover
items, descending `days_overdue` within each group, remaining ties by
ascending account name under the case-insensitive compare; the
due-next-business-day list is ordered by ascending account name only. -/
theorem fetchData_ordering_spec (today : Int) (allOpps : List Opportunity)
    (cs : List Contact) (logs : List OutreachLog) (res : EngineResult)
    (h : fetchData today allOpps cs logs = Except.ok res) :
    res.todayContacts.Pairwise dueTodayOrder ∧ res.nextDayContacts.Pairwise nameOrder := by
  obtain ⟨-, -, allDue, -, htoday, hnext⟩ := fetchData_ok_decompose h
  constructor
  · rw [htoday]
    exact (jsSortBy_pairwise todayCmp (fun h1 h2 => todayCmp_trans h1 h2) todayCmp_total _).imp
      (fun hle => todayCmp_le_imp_dueTodayOrder hle)
  · rw [hnext]
    refine (jsSortBy_pairwise nameCmp ?_ ?_ _).imp ?_
    · intro a b c h1 h2
      exact localeCompare_trans h1 h2
    · intro a b
      exact localeCompare_total _ _
    · intro a b hle
      exact hle

/-- Witness for C3 on the example data: the due-today list there is
[Zeta (overdue 7, rollover), Alpha (overdue 3, rollover), Mid (due today)],
the preview list is [alpha, Beta]. -/
theorem fetchData_ordering_spec_witness :
    exampleRun.todayContacts.Pairwise dueTodayOrder ∧
    exampleRun.nextDayContacts.Pairwise nameOrder :=
  fetchData_ordering_spec exToday exOpps exContacts exLogs exampleRun rfl

/-- C6 (amended): a contact with NO last-event entry takes the
never-contacted path: due date is today when today is a business day and the
next business day otherwise, the record is marked never contacted
(`last_contact_date` and `days_since_contact` are null), and when today is a
business day the record is classified due today (`dueDate ≤ today`) with
`daysOverdue = 0`. (A present-but-malformed date does NOT take this path:
see the counterexample — the engine throws instead.) -/
theorem processContact_never_contacted_spec (today : Int) (opp : Opportunity)
    (c : Contact) (r : ContactWithDueInfo)
    (h : processContact today (isBusinessDay today) (getNextBusinessDay today)
      (some opp) none c = Except.ok (some r)) :
    r.due_date = (if isBusinessDay today then today else getNextBusinessDay today) ∧
    r.last_contact_date = none ∧
    r.days_since_contact = none ∧
    (isBusinessDay today = true → (r.due_date ≤ today ∧ r.days_overdue = 0)) := by
  rw [processContact] at h
  simp only [Except.ok.injEq, Option.some.injEq] at h
  subst h
  refine ⟨rfl, rfl, rfl, ?_⟩
  intro hbiz
  constructor
  · show (if isBusinessDay today then today else getNextBusinessDay today) ≤ today
    rw [if_pos hbiz]
  · show countBusinessDays
      (if isBusinessDay today then today else getNextBusinessDay today) today = 0
    rw [if_pos hbiz]
    exact countBusinessDays_of_le (le_refl today)

/-- Witness for the amended C6: never-contacted contact, today = 6, a
Wednesday. -/
theorem processContact_never_contacted_spec_witness :
    exampleNeverRecord.due_date = (if isBusinessDay 6 then (6 : Int) else getNextBusinessDay 6) ∧
    exampleNeverRecord.last_contact_date = none ∧
    exampleNeverRecord.days_since_contact = none ∧
    (isBusinessDay 6 = true →
      (exampleNeverRecord.due_date ≤ 6 ∧ exampleNeverRecord.days_overdue = 0)) :=
  processContact_never_contacted_spec 6 cexOpp cexContact10 exampleNeverRecord rfl

/-- Counterexample to C6 as stated: a contact whose last-event date is
present but malformed (an `Invalid Date`) is NOT treated as never-contacted;
the thrown `RangeError` from `toISOString` aborts the per-contact computation
and the whole `fetchData` call. -/
theorem fetchData_malformed_date_error :
    processContact 6 true 7 (some cexOpp) (some cexBadLog) cexContact10 = Except.error () ∧
    fetchData 6 [cexOpp] [cexContact10] [cexBadLog] = Except.error () :=
  ⟨rfl, rfl⟩

/-- C7 (amended): a missing or zero cadence is defaulted to 10 business days
(`cadence_days || 10` — 0 is falsy), but a NEGATIVE cadence is kept as-is,
and `addBusinessDays` with a negative count returns the start date unchanged,
so the due date equals the last-outreach date; in every case the business-day
arithmetic terminates (no divide-by-zero or infinite loop). -/
theorem processContact_cadence_default_spec (today : Int) (ib : Bool) (nbd : Int)
    (opp : Opportunity) (last : OutreachLog) (c : Contact) (ld k : Int)
    (r : ContactWithDueInfo)
    (hdate : last.contact_date = some ld)
    (h : processContact today ib nbd (some opp) (some last) c = Except.ok (some r)) :
    ((c.cadence_days = none ∨ c.cadence_days = some 0) → r.due_date = addBusinessDays ld 10) ∧
    ((c.cadence_days = some k ∧ k < 0) → r.due_date = ld) ∧
    ((c.cadence_days = some k ∧ k ≠ 0) → r.due_date = addBusinessDays ld k) := by
  rw [processContact, hdate] at h
  simp only [Except.ok.injEq, Option.some.injEq] at h
  subst h
  refine ⟨?_, ?_, ?_⟩
  · intro hc
    show addBusinessDays ld (jsOrDefault c.cadence_days 10) = addBusinessDays ld 10
    rcases hc with hc | hc <;> rw [hc] <;> simp [jsOrDefault]
  · rintro ⟨hc, hneg⟩
    show addBusinessDays ld (jsOrDefault c.cadence_days 10) = ld
    rw [hc]
    show addBusinessDays ld (if k = 0 then (10 : Int) else k) = ld
    rw [if_neg (by omega)]
    rw [addBusinessDays_eq_iterate]
    have h0 : k.toNat = 0 := by omega
    rw [h0]
    rfl
  · rintro ⟨hc, hne⟩
    show addBusinessDays ld (jsOrDefault c.cadence_days 10) = addBusinessDays ld k
    rw [hc]
    show addBusinessDays ld (if k = 0 then (10 : Int) else k) = addBusinessDays ld k
    rw [if_neg hne]

/-- Witness for the amended C7: missing cadence defaults to 10. -/
theorem processContact_cadence_default_spec_witness :
    exampleDefaultRecord.due_date = addBusinessDays 0 10 :=
  (processContact_cadence_default_spec 6 true 7 cexOpp cexLog0 cexNoneContact 0 5
    exampleDefaultRecord rfl rfl).1 (Or.inl rfl)

/-- Counterexample to C7 as stated: with cadence `-3` (non-positive) and last
outreach on day 0, the engine computes `dueDate = 0` (the last-outreach date,
because `-3 || 10` keeps `-3` in JS and `addBusinessDays` with a negative
count is the identity), NOT the default-cadence due date
`addBusinessDays 0 10 = 14`. -/
theorem processContact_negative_cadence_counterexample :
    processContact 6 true 7 (some cexOpp) (some cexLog0) cexNegContact =
      Except.ok (some
        { contact := cexNegContact, health_system := { name := "Acme".data },
          opportunity := cexOpp,
          last_contact_date := some 0, days_since_contact := some 6,
          days_overdue := countBusinessDays 0 6, due_date := 0, is_rollover := true }) ∧
    addBusinessDays 0 10 ≠ 0 :=
  ⟨rfl, by decide⟩

/-- C9: under the schema's status enum (null, prospect, active, won), every
record in either output list belongs to an opportunity whose status is
"prospect" or unset; opportunities with status "active" or "won" are filtered
out before any contact is processed. -/
theorem fetchData_prospect_only_spec (today : Int) (allOpps : List Opportunity)
    (cs : List Contact) (logs : List OutreachLog) (res : EngineResult)
    (r : ContactWithDueInfo)
    (henum : ∀ o ∈ allOpps, o.status = none ∨ o.status = some "prospect".data ∨
      o.status = some "active".data ∨ o.status = some "won".data)
    (h : fetchData today allOpps cs logs = Except.ok res)
    (hr : r ∈ res.todayContacts ∨ r ∈ res.nextDayContacts) :
    r.opportunity.status = none ∨ r.opportunity.status = some "prospect".data := by
  obtain ⟨-, -, allDue, hdue, htoday, hnext⟩ := fetchData_ok_decompose h
  have hrAll : r ∈ allDue := by
    rcases hr with hr | hr
    · rw [htoday, mem_jsSortBy] at hr
      exact (List.mem_filter.mp hr).1
    · rw [hnext, mem_jsSortBy] at hr
      exact (List.mem_filter.mp hr).1
  obtain ⟨c, hc, hpc⟩ := buildDueContacts_mem hdue r hrAll
  obtain ⟨-, -, -, opp, hoppEq, hrOpp, -⟩ := processContact_fields hpc
  have hfind : opp ∈ filterOpps allOpps := by
    unfold lookupOpp at hoppEq
    exact List.mem_of_find?_eq_some hoppEq
  unfold filterOpps at hfind
  obtain ⟨hmemAll, hstatus⟩ := List.mem_filter.mp hfind
  rcases henum opp hmemAll with h0 | h0 | h0 | h0
  · exact Or.inl (by rw [hrOpp, h0])
  · exact Or.inr (by rw [hrOpp, h0])
  · rw [h0] at hstatus
    exact absurd hstatus (by decide)
  · rw [h0] at hstatus
    exact absurd hstatus (by decide)

/-- Witness for C9 on the example data (whose statuses are null, prospect and
active): the head of the due-today list has a prospect opportunity. -/
theorem fetchData_prospect_only_spec_witness :
    exampleDueRecord.opportunity.status = none ∨
    exampleDueRecord.opportunity.status = some "prospect".data :=
  fetchData_prospect_only_spec exToday exOpps exContacts exLogs exampleRun
    exampleDueRecord (by decide) rfl (Or.inl (by decide))

end ArubaCRM
